/-
Shallow embedding of traefik-officer (src/pkg/main.go) in Lean 4.

Modelling conventions:
* Go strings are Lean `String`s; list/character reasoning goes through `String.data`.
* Go `float64` fields are modelled as rationals (`ℚ`); arithmetic on them is exact.
* Go `error` values are modelled as `Option String` carrying the message text,
  because the main loop compares the message with the literal "ParseError"
  (`err.Error() == "ParseError"`).
* A Go runtime panic (nil-pointer dereference) is modelled by `Option.none`
  in the result of the function that would panic.
* Prometheus metrics are modelled as an explicit `MetricState` value: the two
  counters are naturals, each `Observe` call conses the observed sample onto a
  list (sample multisets and counts are faithful; list order is newest-first).
-/
import Mathlib

namespace TraefikOfficer

/-! ## Go standard-library string helpers used by main.go -/

/-- `sub.isPrefixOf l`-based substring search: model of Go `strings.Contains`.
Go's `strings.Contains(s, "")` is `true`; this model agrees
(`[].isPrefixOf l = true`). -/
def containsSub (sub : List Char) : List Char → Bool
  | [] => sub.isEmpty
  | c :: rest => sub.isPrefixOf (c :: rest) || containsSub sub rest

/-- Model of Go `strings.Contains(s, sub)`. -/
def goContains (s sub : String) : Bool :=
  containsSub sub.data s.data

/-- Model of Go `strings.HasPrefix(s, pre)`. -/
def goHasPre (s pre : String) : Bool :=
  pre.data.isPrefixOf s.data

/-- Model of Go `strings.Split(s, sep)` for a one-character separator
(the source only splits on "?" and "&"). -/
def goSplit (sep : Char) : List Char → List (List Char)
  | [] => [[]]
  | c :: rest =>
    if c = sep then [] :: goSplit sep rest
    else
      match goSplit sep rest with
      | [] => [[c]]
      | h :: t => (c :: h) :: t

/-- Model of Go `strings.Trim(s, cutset)`: remove all leading and trailing
characters contained in `cutset`. -/
def goTrim (s : String) (cutset : List Char) : String :=
  String.mk (((s.data.dropWhile (fun c => cutset.contains c)).reverse.dropWhile
      (fun c => cutset.contains c)).reverse)

/-! ## Configuration, record and metric state (src/pkg/main.go lines 55-75, 29-51) -/

/-- `traefikOfficerConfig` (main.go lines 55-61). -/
structure traefikOfficerConfig where
  IgnoredNamespaces : List String
  IgnoredRouters : List String
  IgnoredPathsRegex : List String
  MergePathsWithExtensions : List String
  WhitelistPaths : List String
deriving DecidableEq, Repr

/-- `traefikJSONLog` (main.go lines 63-75); float64 fields modelled as ℚ. -/
structure traefikJSONLog where
  ClientHost : String := ""
  StartUTC : String := ""
  RouterName : String := ""
  RequestMethod : String := ""
  RequestPath : String := ""
  RequestProtocol : String := ""
  OriginStatus : Int := 0
  OriginContentSize : Int := 0
  RequestCount : Int := 0
  Duration : ℚ := 0
  Overhead : ℚ := 0
deriving DecidableEq, Repr

/-- The Go zero value of `traefikJSONLog` (`var log traefikJSONLog`). -/
def zeroLog : traefikJSONLog := {}

/-- The process-wide metric state (the promauto counters/series of
main.go lines 29-51), made explicit. -/
structure MetricState where
  linesProcessed : Nat := 0
  linesIgnored : Nat := 0
  /-- `latencyMetrics.WithLabelValues(requestPath, method).Observe(duration)`:
  one entry `(requestPath, method, duration)` per call, newest first. -/
  latencyObs : List (String × String × ℚ) := []
  /-- `traefikOverhead.Observe` samples, newest first. -/
  overheadObs : List ℚ := []
  /-- raw lines passed through to stdout by the threshold check. -/
  passthroughLines : List String := []
deriving DecidableEq, Repr

/-- The command-line flags the pipeline body reads (main.go lines 78-92). -/
structure Flags where
  includeQueryArgs : Bool := false
  strictWhitelist : Bool := false
  jsonLogs : Bool := false
  passLogAboveThreshold : ℚ := 1
deriving DecidableEq, Repr

/-! ## checkWhiteList and mergePaths (main.go lines 201-219) -/

/-- `checkWhiteList` (main.go lines 201-209): first substring match wins. -/
def checkWhiteList (str : String) (matchStrings : List String) : Bool :=
  match matchStrings with
  | [] => false
  | matchStr :: rest =>
    if goContains str matchStr then true else checkWhiteList str rest

/-- `mergePaths` (main.go lines 211-219): collapse to the first configured
literal prefix of `str`; otherwise return `str` unchanged. -/
def mergePaths (str : String) (matchStrings : List String) : String :=
  match matchStrings with
  | [] => str
  | matchStr :: rest =>
    if goHasPre str matchStr then matchStr else mergePaths str rest

/-- Path normalization done inline in main (main.go lines 158-166):
when query args are excluded, truncate at the first `?`, then at the first
`&` (`strings.Split(..)[0]` twice), then `mergePaths`. -/
def trimQueryArgs (path : String) : String :=
  String.mk ((goSplit '&' ((goSplit '?' path.data).headD [])).headD [])

/-- The `requestPath` computation of main.go lines 158-166. -/
def normalizePath (includeQueryArgs : Bool) (mergeList : List String)
    (path : String) : String :=
  if includeQueryArgs = false then mergePaths (trimQueryArgs path) mergeList
  else path

/-- Spec-side truncation, following the spec's words: "truncate RequestPath at
the first `?` and the first `&`" — i.e. keep the characters strictly before
the first `?`, then strictly before the first `&`. -/
def specTruncate (path : String) : String :=
  String.mk ((path.data.takeWhile (fun c => c ≠ '?')).takeWhile (fun c => c ≠ '&'))

/-! ### Lemmas about the string helpers -/

theorem goSplit_ne_nil (sep : Char) (l : List Char) : goSplit sep l ≠ [] := by
  cases l with
  | nil => simp [goSplit]
  | cons c rest =>
    simp only [goSplit]
    split
    · simp
    · cases h : goSplit sep rest with
      | nil => simp
      | cons h t => simp

theorem goSplit_headD (sep : Char) (l : List Char) :
    (goSplit sep l).headD [] = l.takeWhile (fun c => c ≠ sep) := by
  induction l with
  | nil => simp [goSplit]
  | cons c rest ih =>
    simp only [goSplit, List.takeWhile]
    by_cases hc : c = sep
    · simp [hc]
    · simp only [if_neg hc]
      have hne := goSplit_ne_nil sep rest
      cases h : goSplit sep rest with
      | nil => exact absurd h hne
      | cons hd tl =>
        simp only [List.headD]
        rw [h] at ih
        simp only [List.headD] at ih
        simp [hc, ih]

theorem trimQueryArgs_eq_specTruncate (path : String) :
    trimQueryArgs path = specTruncate path := by
  unfold trimQueryArgs specTruncate
  rw [goSplit_headD, goSplit_headD]

/-! ## A model of Go's `regexp` package (the subset main.go relies on)

`regexp.Compile` + `MatchString` / `FindStringSubmatch`.  The matcher is a
fuel-bounded backtracking matcher with greedy quantifiers and leftmost search,
which agrees with Go on the patterns that occur here; an empty star iteration
is never repeated (Go/RE2 likewise make no progress-free repetitions). -/

/-- Abstract syntax of the regex subset used by the access-log grammar and by
typical rule patterns. `cls neg ranges` is a character class given by
inclusive ranges; `neg` complements it. -/
inductive GRegex where
  | eps
  | chr (c : Char)
  | cls (neg : Bool) (ranges : List (Char × Char))
  | anyc
  | cat (a b : GRegex)
  | alt (a b : GRegex)
  | star (a : GRegex)
  | opt (a : GRegex)
  | plus (a : GRegex)
  | group (idx : Nat) (a : GRegex)
  | atStart
  | atEnd
deriving DecidableEq, Repr

/-- Ranges of Go's `\s` = `[\t\n\f\r ]`. -/
def spaceRanges : List (Char × Char) := [('\t', '\n'), ('\x0C', '\r'), (' ', ' ')]

/-- Ranges of Go's `\w`. -/
def wordRanges : List (Char × Char) := [('0', '9'), ('A', 'Z'), ('_', '_'), ('a', 'z')]

/-- Character-class membership test. -/
def clsMatch (neg : Bool) (ranges : List (Char × Char)) (c : Char) : Bool :=
  let inSet := ranges.any (fun p => decide (p.1 ≤ c) && decide (c ≤ p.2))
  if neg then !inSet else inSet

/-- Size of a regex, used only to choose a generous fuel bound. -/
def reSize : GRegex → Nat
  | .eps => 1
  | .chr _ => 1
  | .cls _ _ => 1
  | .anyc => 1
  | .atStart => 1
  | .atEnd => 1
  | .cat a b => reSize a + reSize b + 1
  | .alt a b => reSize a + reSize b + 1
  | .star a => reSize a + 2
  | .opt a => reSize a + 2
  | .plus a => reSize a + 3
  | .group _ a => reSize a + 1

/-- Backtracking matcher in continuation-passing style.  `totalLen` is the
length of the whole subject (for `^`); `caps` accumulates group captures
(newest first, so a later capture of the same group shadows an earlier one,
as in Go).  `none` = no match (or fuel exhausted; the fuel chosen below is
generous enough for all evaluations performed in this file). -/
def mtch : Nat → GRegex → List Char → Nat → List (Nat × List Char) →
    (List Char → List (Nat × List Char) → Option (List (Nat × List Char))) →
    Option (List (Nat × List Char))
  | 0, _, _, _, _, _ => none
  | fuel + 1, re, s, totalLen, caps, k =>
    match re with
    | .eps => k s caps
    | .chr c =>
      match s with
      | [] => none
      | c' :: rest => if c' = c then k rest caps else none
    | .cls neg ranges =>
      match s with
      | [] => none
      | c' :: rest => if clsMatch neg ranges c' then k rest caps else none
    | .anyc =>
      match s with
      | [] => none
      | c' :: rest => if c' = '\n' then none else k rest caps
    | .cat a b =>
      mtch fuel a s totalLen caps (fun s' caps' => mtch fuel b s' totalLen caps' k)
    | .alt a b =>
      match mtch fuel a s totalLen caps k with
      | some r => some r
      | none => mtch fuel b s totalLen caps k
    | .opt a =>
      match mtch fuel a s totalLen caps k with
      | some r => some r
      | none => k s caps
    | .star a =>
      match mtch fuel a s totalLen caps (fun s' caps' =>
          if s'.length < s.length then mtch fuel (.star a) s' totalLen caps' k
          else none) with
      | some r => some r
      | none => k s caps
    | .plus a =>
      mtch fuel a s totalLen caps (fun s' caps' =>
        mtch fuel (.star a) s' totalLen caps' k)
    | .group idx a =>
      mtch fuel a s totalLen caps (fun s' caps' =>
        k s' ((idx, s.take (s.length - s'.length)) :: caps'))
    | .atStart => if s.length = totalLen then k s caps else none
    | .atEnd => if s.isEmpty then k s caps else none

/-- Fuel used for one match attempt on subject `s`. -/
def matchFuel (re : GRegex) (n : Nat) : Nat :=
  (reSize re + 2) * (n + 2) * 2

/-- Try to match `re` at the current offset, recording the whole match as
group 0; the match may end anywhere (continuation accepts immediately). -/
def searchAt (fuel : Nat) (re : GRegex) (totalLen : Nat) (s : List Char) :
    Option (List (Nat × List Char)) :=
  mtch fuel (.group 0 re) s totalLen [] (fun _ caps => some caps)

/-- Leftmost unanchored search: try each start offset in order. -/
def searchAll (fuel : Nat) (re : GRegex) (totalLen : Nat) :
    List Char → Option (List (Nat × List Char))
  | [] => searchAt fuel re totalLen []
  | c :: rest =>
    match searchAt fuel re totalLen (c :: rest) with
    | some caps => some caps
    | none => searchAll fuel re totalLen rest

/-- Model of Go `(*Regexp).MatchString`. -/
def matchString (re : GRegex) (s : String) : Bool :=
  (searchAll (matchFuel re s.length) re s.length s.data).isSome

/-- Build the Go submatch slice from the capture list: entry `i` of the
result is the text of group `i` (group 0 = whole match), `""` when the group
did not participate. -/
def capsToList (caps : List (Nat × List Char)) (nGroups : Nat) : List String :=
  (List.range (nGroups + 1)).map fun i =>
    String.mk (((caps.find? (fun p => p.1 = i)).map Prod.snd).getD [])

/-- Model of Go `(*Regexp).FindStringSubmatch`: the empty list stands for
Go's `nil` result (whose `len` is 0). -/
def findStringSubmatch (re : GRegex) (nGroups : Nat) (s : String) : List String :=
  match searchAll (matchFuel re s.length) re s.length s.data with
  | some caps => capsToList caps nGroups
  | none => []

/-! ### `regexp.Compile`: recursive-descent translation of a pattern string -/

/-- Parse the items of a character class after the opening bracket (and after
the optional `^` and a leading literal `]` have been consumed), up to the
closing `]`.  Supports literal characters, `\`-escaped literals and `a-b`
ranges; an unterminated class is a compile error. -/
def parseClsItems : Nat → List Char → List (Char × Char) →
    Option (List (Char × Char) × List Char)
  | 0, _, _ => none
  | _, [], _ => none
  | fuel + 1, c :: rest, acc =>
    if c = ']' then some (acc, rest)
    else
      let base? : Option (Char × List Char) :=
        if c = '\\' then
          match rest with
          | [] => none
          | e :: rest' => some (e, rest')
        else some (c, rest)
      match base? with
      | none => none
      | some (b, rest1) =>
        match rest1 with
        | '-' :: ']' :: rest2 => some (('-', '-') :: (b, b) :: acc, rest2)
        | '-' :: d :: rest2 => parseClsItems fuel rest2 ((b, d) :: acc)
        | _ => parseClsItems fuel rest1 ((b, b) :: acc)

/-- Nonterminal selector for the pattern grammar. -/
inductive PMode where
  | palt
  | pseq
  | patom
deriving DecidableEq, Repr

/-- Recursive-descent pattern compiler: `palt` = alternation (`|`),
`pseq` = concatenation with postfix `*`/`+`/`?`, `patom` = a single atom
(group, class, escape, anchor, `.`, or literal).  `nextG` numbers capturing
groups in order of `(` as Go does.  `none` = compile error (for example an
unbalanced `(`). -/
def parseRe : Nat → PMode → List Char → Nat → Option (GRegex × List Char × Nat)
  | 0, _, _, _ => none
  | fuel + 1, mode, input, nextG =>
    match mode with
    | .palt =>
      match parseRe fuel .pseq input nextG with
      | none => none
      | some (a, rest, nextG1) =>
        match rest with
        | '|' :: rest' =>
          match parseRe fuel .palt rest' nextG1 with
          | none => none
          | some (b, rest2, nextG2) => some (.alt a b, rest2, nextG2)
        | _ => some (a, rest, nextG1)
    | .pseq =>
      match input with
      | [] => some (.eps, [], nextG)
      | ')' :: _ => some (.eps, input, nextG)
      | '|' :: _ => some (.eps, input, nextG)
      | _ =>
        match parseRe fuel .patom input nextG with
        | none => none
        | some (a, rest, nextG1) =>
          let step : GRegex × List Char :=
            match rest with
            | '*' :: r => (.star a, r)
            | '+' :: r => (.plus a, r)
            | '?' :: r => (.opt a, r)
            | _ => (a, rest)
          match parseRe fuel .pseq step.2 nextG1 with
          | none => none
          | some (b, rest2, nextG2) => some (.cat step.1 b, rest2, nextG2)
    | .patom =>
      match input with
      | [] => none
      | c :: rest =>
        if c = '(' then
          match rest with
          | '?' :: ':' :: rest' =>
            match parseRe fuel .palt rest' nextG with
            | some (r, ')' :: rest2, nextG1) => some (r, rest2, nextG1)
            | _ => none
          | _ =>
            match parseRe fuel .palt rest (nextG + 1) with
            | some (r, ')' :: rest2, nextG1) => some (.group nextG r, rest2, nextG1)
            | _ => none
        else if c = '[' then
          let negRest : Bool × List Char :=
            match rest with
            | '^' :: r => (true, r)
            | _ => (false, rest)
          let accRest : List (Char × Char) × List Char :=
            match negRest.2 with
            | ']' :: r => ([(']', ']')], r)
            | _ => ([], negRest.2)
          match parseClsItems fuel accRest.2 accRest.1 with
          | none => none
          | some (ranges, rest2) => some (.cls negRest.1 ranges, rest2, nextG)
        else if c = '\\' then
          match rest with
          | [] => none
          | e :: rest' =>
            if e = 'S' then some (.cls true spaceRanges, rest', nextG)
            else if e = 's' then some (.cls false spaceRanges, rest', nextG)
            else if e = 'd' then some (.cls false [('0', '9')], rest', nextG)
            else if e = 'D' then some (.cls true [('0', '9')], rest', nextG)
            else if e = 'w' then some (.cls false wordRanges, rest', nextG)
            else if e = 'W' then some (.cls true wordRanges, rest', nextG)
            else if e.isAlpha || e.isDigit then none
            else some (.chr e, rest', nextG)
        else if c = '.' then some (.anyc, rest, nextG)
        else if c = '^' then some (.atStart, rest, nextG)
        else if c = '$' then some (.atEnd, rest, nextG)
        else if c = '*' || c = '+' || c = '?' || c = ')' || c = '|' then none
        else some (.chr c, rest, nextG)

/-- Model of Go `regexp.Compile`: `none` is a compile error.  The whole
pattern must be consumed.  Capturing groups are numbered from 1 (index 0 is
reserved for the whole match, as in Go's submatch convention). -/
def compileRegex (pat : String) : Option GRegex :=
  match parseRe (3 * pat.length + 9) .palt pat.data 1 with
  | some (r, [], _) => some r
  | _ => none

/-- `checkMatches` (main.go lines 221-235).  On a pattern that fails to
compile the source logs the error but still calls `reg.MatchString` on the
`nil` `*Regexp` returned by `regexp.Compile` — a nil-pointer dereference
panic, modelled by `none`. -/
def checkMatches (str : String) (matchExpressions : List String) : Option Bool :=
  match matchExpressions with
  | [] => some false
  | expr :: rest =>
    match compileRegex expr with
    | none => none
    | some reg =>
      if matchString reg str then some true else checkMatches str rest

/-! ## strconv models -/

/-- Decimal digits to a natural number. -/
def digitsToNat (l : List Char) : Nat :=
  l.foldl (fun acc c => acc * 10 + (c.toNat - '0'.toNat)) 0

/-- Syntax of Go `strconv.Atoi`: optional sign, then decimal digits. -/
def parseIntOpt (s : String) : Option Int :=
  match s.data with
  | [] => none
  | '-' :: rest =>
    if rest ≠ [] ∧ rest.all Char.isDigit then some (-(digitsToNat rest : Int)) else none
  | '+' :: rest =>
    if rest ≠ [] ∧ rest.all Char.isDigit then some ((digitsToNat rest : Int)) else none
  | l =>
    if l.all Char.isDigit then some ((digitsToNat l : Int)) else none

/-- Model of Go `strconv.Atoi` as used in main.go (the error is discarded
with `_`, and on a syntax error Atoi's value result is 0; the int-range
clamping of huge literals is not modelled). -/
def goAtoi (s : String) : Int :=
  (parseIntOpt s).getD 0

/-- Model of Go `strconv.ParseFloat` on decimal notation, producing an exact
rational (`none` = Go returns an error together with value 0). -/
def parseFloatQ (s : String) : Option ℚ :=
  let step1 : ℚ × List Char :=
    match s.data with
    | '-' :: r => (-1, r)
    | '+' :: r => (1, r)
    | l => (1, l)
  let sign := step1.1
  let r1 := step1.2
  let intPart := r1.takeWhile Char.isDigit
  let r2 := r1.dropWhile Char.isDigit
  let fracStep : List Char × List Char :=
    match r2 with
    | '.' :: r => (r.takeWhile Char.isDigit, r.dropWhile Char.isDigit)
    | _ => ([], r2)
  let fracPart := fracStep.1
  let r3 := fracStep.2
  if intPart.isEmpty && fracPart.isEmpty then none
  else
    let mant : ℚ := (digitsToNat intPart : ℚ) +
      (digitsToNat fracPart : ℚ) / ((10 : ℚ) ^ fracPart.length)
    match r3 with
    | [] => some (sign * mant)
    | 'e' :: r4 =>
      let expStep : Bool × List Char :=
        match r4 with
        | '-' :: r => (true, r)
        | '+' :: r => (false, r)
        | l => (false, l)
      if expStep.2.isEmpty || !(expStep.2.all Char.isDigit) then none
      else
        let e := digitsToNat expStep.2
        some (sign * mant * (if expStep.1 then ((10 : ℚ) ^ e)⁻¹ else (10 : ℚ) ^ e))
    | 'E' :: r4 =>
      let expStep : Bool × List Char :=
        match r4 with
        | '-' :: r => (true, r)
        | '+' :: r => (false, r)
        | l => (false, l)
      if expStep.2.isEmpty || !(expStep.2.all Char.isDigit) then none
      else
        let e := digitsToNat expStep.2
        some (sign * mant * (if expStep.1 then ((10 : ℚ) ^ e)⁻¹ else (10 : ℚ) ^ e))
    | _ => none

/-! ## parseLine (main.go lines 271-332) -/

/-- `\S` -/
def nonSpace : GRegex := .cls true spaceRanges

/-- `\s` -/
def spaceC : GRegex := .cls false spaceRanges

/-- `[^]]` -/
def notRBracket : GRegex := .cls true [(']', ']')]

/-- `[^"]` -/
def notQuote : GRegex := .cls true [('"', '"')]

/-- Concatenation of a list of regexes (mirrors the `buffer.WriteString`
sequence building one big pattern). -/
def catList (l : List GRegex) : GRegex := l.foldr .cat .eps

/-- The 14-group access-log pattern of main.go lines 272-287, one list entry
per `buffer.WriteString` call. -/
def accessLogRegex : GRegex := catList [
  .group 1 (.plus nonSpace),                                -- `(\S+)`     1 ClientHost
  spaceC, .chr '-', spaceC,                                 -- `\s-\s`
  .group 2 (.plus nonSpace), spaceC,                        -- `(\S+)\s`   2 ClientUsername
  .chr '[', .group 3 (.plus notRBracket), .chr ']', spaceC, -- `\[([^]]+)\]\s` 3 StartUTC
  .chr '"', .group 4 (.star nonSpace), .opt spaceC,         -- `"(\S*)\s?` 4 RequestMethod
  .group 5 (.star (.cat (.star notQuote)
    (.opt (.cat (.chr '\\') (.chr '"'))))), spaceC,         -- `((?:[^"]*(?:\\")?)*)\s` 5 RequestPath
  .group 6 (.star notQuote), .chr '"', spaceC,              -- `([^"]*)"\s` 6 RequestProtocol
  .group 7 (.plus nonSpace), spaceC,                        -- `(\S+)\s`   7 OriginStatus
  .group 8 (.plus nonSpace), spaceC,                        -- `(\S+)\s`   8 OriginContentSize
  .group 9 (catList [.opt (.chr '"'), .plus nonSpace,
    .opt (.chr '"')]), spaceC,                              -- `("?\S+"?)\s` 9 Referrer
  .group 10 (catList [.chr '"', .plus nonSpace, .chr '"']),
    spaceC,                                                 -- `("\S+")\s` 10 User-Agent
  .group 11 (.plus nonSpace), spaceC,                       -- `(\S+)\s`   11 RequestCount
  .group 12 (.alt (catList [.chr '"', .star notQuote, .chr '"'])
    (.chr '-')), spaceC,                                    -- `("[^"]*"|-)\s` 12 FrontendName
  .group 13 (.alt (catList [.chr '"', .star notQuote, .chr '"'])
    (.chr '-')), spaceC,                                    -- `("[^"]*"|-)\s` 13 BackendURL
  .group 14 (.plus nonSpace)                                -- `(\S+)`     14 Duration
]

/-- `parseLine` (main.go lines 271-332).  The pattern literal always
compiles, so the `"ParseError"` branch after `regexp.Compile` is dead; when
the line does not match, `len(submatch) > 13` fails and the function returns
the zero record together with the error message "Access Log Line Invalid".
A non-numeric Duration is tolerated (logged; `strconv.ParseFloat` yields 0
and the function still returns `nil` error). -/
def parseLine (line : String) : traefikJSONLog × Option String :=
  let submatch := findStringSubmatch accessLogRegex 14 line
  if submatch.length > 13 then
    let log : traefikJSONLog := {
      ClientHost := submatch.getD 1 "",
      StartUTC := submatch.getD 3 "",
      RequestMethod := submatch.getD 4 "",
      RequestPath := submatch.getD 5 "",
      RequestProtocol := submatch.getD 6 "",
      OriginStatus := goAtoi (submatch.getD 7 ""),
      OriginContentSize := goAtoi (submatch.getD 8 ""),
      RequestCount := goAtoi (submatch.getD 11 ""),
      RouterName := goTrim (submatch.getD 12 "") ['\\', '"'],
      Duration := (parseFloatQ (goTrim (submatch.getD 14 "") ['m', 's'])).getD 0
    }
    (log, none)
  else
    (zeroLog, some "Access Log Line Invalid")

/-! ## A model of `encoding/json` (the subset parseJSON relies on) -/

/-- JSON values. -/
inductive JVal where
  | jnull
  | jbool (b : Bool)
  | jnum (q : ℚ)
  | jstr (s : String)
  | jarr (l : List JVal)
  | jobj (l : List (String × JVal))
deriving Repr

/-- Skip JSON insignificant whitespace. -/
def skipWs (l : List Char) : List Char :=
  l.dropWhile (fun c => c = ' ' || c = '\t' || c = '\n' || c = '\r')

/-- Hex digit test. -/
def isHexDig (c : Char) : Bool :=
  c.isDigit || ('a' ≤ c && c ≤ 'f') || ('A' ≤ c && c ≤ 'F')

/-- Value of one hex digit. -/
def hexDigitVal (c : Char) : Nat :=
  if c.isDigit then c.toNat - 48
  else if 'a' ≤ c && c ≤ 'f' then c.toNat - 87
  else if 'A' ≤ c && c ≤ 'F' then c.toNat - 55
  else 0

/-- Parse the body of a JSON string after the opening quote; returns the
decoded characters and the input after the closing quote. -/
def parseJStr : Nat → List Char → Option (List Char × List Char)
  | 0, _ => none
  | _, [] => none
  | fuel + 1, c :: rest =>
    if c = '"' then some ([], rest)
    else if c = '\\' then
      match rest with
      | [] => none
      | e :: rest' =>
        let dec? : Option (Char × List Char) :=
          if e = '"' then some ('"', rest')
          else if e = '\\' then some ('\\', rest')
          else if e = '/' then some ('/', rest')
          else if e = 'b' then some ('\x08', rest')
          else if e = 'f' then some ('\x0C', rest')
          else if e = 'n' then some ('\n', rest')
          else if e = 'r' then some ('\r', rest')
          else if e = 't' then some ('\t', rest')
          else if e = 'u' then
            match rest' with
            | h1 :: h2 :: h3 :: h4 :: rest2 =>
              if isHexDig h1 && isHexDig h2 && isHexDig h3 && isHexDig h4 then
                some (Char.ofNat (((hexDigitVal h1 * 16 + hexDigitVal h2) * 16 +
                  hexDigitVal h3) * 16 + hexDigitVal h4), rest2)
              else none
            | _ => none
          else none
        match dec? with
        | none => none
        | some (ch, r2) => (parseJStr fuel r2).map (fun p => (ch :: p.1, p.2))
    else if c.toNat < 32 then none
    else (parseJStr fuel rest).map (fun p => (c :: p.1, p.2))

/-- Parse a JSON number (RFC 8259 grammar: no leading zeros, mandatory digits
around the decimal point) into an exact rational. -/
def parseJNum (l : List Char) : Option (ℚ × List Char) :=
  let step1 : Bool × List Char :=
    match l with
    | '-' :: r => (true, r)
    | _ => (false, l)
  let neg := step1.1
  let r1 := step1.2
  let intPart := r1.takeWhile Char.isDigit
  let r2 := r1.dropWhile Char.isDigit
  if intPart.isEmpty then none
  else if intPart.length > 1 && intPart.headD '0' = '0' then none
  else
    let fracStep : Option (List Char × List Char) :=
      match r2 with
      | '.' :: r =>
        let f := r.takeWhile Char.isDigit
        if f.isEmpty then none else some (f, r.dropWhile Char.isDigit)
      | _ => some ([], r2)
    match fracStep with
    | none => none
    | some (fracPart, r3) =>
      let mant : ℚ := (digitsToNat intPart : ℚ) +
        (digitsToNat fracPart : ℚ) / ((10 : ℚ) ^ fracPart.length)
      let signed : ℚ := if neg then -mant else mant
      let expStep : Option (ℚ × List Char) :=
        match r3 with
        | 'e' :: r4 =>
          let se : Bool × List Char :=
            match r4 with
            | '-' :: r => (true, r)
            | '+' :: r => (false, r)
            | l' => (false, l')
          if se.2.takeWhile Char.isDigit = [] then none
          else
            let e := digitsToNat (se.2.takeWhile Char.isDigit)
            some ((if se.1 then ((10 : ℚ) ^ e)⁻¹ else (10 : ℚ) ^ e),
              se.2.dropWhile Char.isDigit)
        | 'E' :: r4 =>
          let se : Bool × List Char :=
            match r4 with
            | '-' :: r => (true, r)
            | '+' :: r => (false, r)
            | l' => (false, l')
          if se.2.takeWhile Char.isDigit = [] then none
          else
            let e := digitsToNat (se.2.takeWhile Char.isDigit)
            some ((if se.1 then ((10 : ℚ) ^ e)⁻¹ else (10 : ℚ) ^ e),
              se.2.dropWhile Char.isDigit)
        | _ => some (1, r3)
      match expStep with
      | none => none
      | some (scale, r5) => some (signed * scale, r5)

/-- Nonterminal selector for JSON parsing: one value, the items of an array
after `[`, or the members of an object after `{` (both nonempty). -/
inductive JMode where
  | jvalue
  | jarrItems
  | jobjItems
deriving DecidableEq, Repr

/-- Fuel-bounded recursive-descent JSON reader. -/
def parseJ : Nat → JMode → List Char → Option (JVal × List Char)
  | 0, _, _ => none
  | fuel + 1, .jvalue, l =>
    match skipWs l with
    | [] => none
    | 'n' :: rest =>
      if rest.take 3 = ['u', 'l', 'l'] then some (.jnull, rest.drop 3) else none
    | 't' :: rest =>
      if rest.take 3 = ['r', 'u', 'e'] then some (.jbool true, rest.drop 3) else none
    | 'f' :: rest =>
      if rest.take 4 = ['a', 'l', 's', 'e'] then some (.jbool false, rest.drop 4) else none
    | '"' :: rest => (parseJStr fuel rest).map (fun p => (.jstr (String.mk p.1), p.2))
    | '[' :: rest =>
      match skipWs rest with
      | ']' :: r => some (.jarr [], r)
      | _ => parseJ fuel .jarrItems rest
    | '{' :: rest =>
      match skipWs rest with
      | '}' :: r => some (.jobj [], r)
      | _ => parseJ fuel .jobjItems rest
    | l' => (parseJNum l').map (fun p => (.jnum p.1, p.2))
  | fuel + 1, .jarrItems, l =>
    match parseJ fuel .jvalue l with
    | none => none
    | some (v, rest) =>
      match skipWs rest with
      | ',' :: r =>
        match parseJ fuel .jarrItems r with
        | some (.jarr items, r2) => some (.jarr (v :: items), r2)
        | _ => none
      | ']' :: r => some (.jarr [v], r)
      | _ => none
  | fuel + 1, .jobjItems, l =>
    match skipWs l with
    | '"' :: rest =>
      match parseJStr fuel rest with
      | none => none
      | some (key, rest1) =>
        match skipWs rest1 with
        | ':' :: rest2 =>
          match parseJ fuel .jvalue rest2 with
          | none => none
          | some (v, rest3) =>
            match skipWs rest3 with
            | ',' :: r =>
              match parseJ fuel .jobjItems r with
              | some (.jobj mems, r2) => some (.jobj ((String.mk key, v) :: mems), r2)
              | _ => none
            | '}' :: r => some (.jobj [(String.mk key, v)], r)
            | _ => none
        | _ => none
    | _ => none

/-- Model of `json.Valid` (main.go line 240): the whole input is exactly one
JSON value (plus whitespace).  Its result is only logged by parseJSON. -/
def jsonValidate (s : String) : Bool :=
  match parseJ (2 * s.length + 16) .jvalue s.data with
  | some (_, rest) => (skipWs rest).isEmpty
  | none => false

/-- Decode one member into the matching struct field.  Unknown keys are
ignored; a type mismatch yields an error message (Go's exact wording is the
stdlib's `json: cannot unmarshal …` text — what matters throughout is that
no `encoding/json` message is ever the literal "ParseError"). -/
def applyField (log : traefikJSONLog) (kv : String × JVal) :
    traefikJSONLog × Option String :=
  let strErr := "json: cannot unmarshal value into Go struct field of type string"
  let intErr := "json: cannot unmarshal value into Go struct field of type int"
  let numErr := "json: cannot unmarshal value into Go struct field of type float64"
  if kv.1 = "ClientHost" then
    match kv.2 with
    | .jstr s => ({ log with ClientHost := s }, none)
    | _ => (log, some strErr)
  else if kv.1 = "StartUTC" then
    match kv.2 with
    | .jstr s => ({ log with StartUTC := s }, none)
    | _ => (log, some strErr)
  else if kv.1 = "RouterName" then
    match kv.2 with
    | .jstr s => ({ log with RouterName := s }, none)
    | _ => (log, some strErr)
  else if kv.1 = "RequestMethod" then
    match kv.2 with
    | .jstr s => ({ log with RequestMethod := s }, none)
    | _ => (log, some strErr)
  else if kv.1 = "RequestPath" then
    match kv.2 with
    | .jstr s => ({ log with RequestPath := s }, none)
    | _ => (log, some strErr)
  else if kv.1 = "RequestProtocol" then
    match kv.2 with
    | .jstr s => ({ log with RequestProtocol := s }, none)
    | _ => (log, some strErr)
  else if kv.1 = "OriginStatus" then
    match kv.2 with
    | .jnum q => if q.den = 1 then ({ log with OriginStatus := q.num }, none)
                 else (log, some intErr)
    | _ => (log, some intErr)
  else if kv.1 = "OriginContentSize" then
    match kv.2 with
    | .jnum q => if q.den = 1 then ({ log with OriginContentSize := q.num }, none)
                 else (log, some intErr)
    | _ => (log, some intErr)
  else if kv.1 = "RequestCount" then
    match kv.2 with
    | .jnum q => if q.den = 1 then ({ log with RequestCount := q.num }, none)
                 else (log, some intErr)
    | _ => (log, some intErr)
  else if kv.1 = "Duration" then
    match kv.2 with
    | .jnum q => ({ log with Duration := q }, none)
    | _ => (log, some numErr)
  else if kv.1 = "Overhead" then
    match kv.2 with
    | .jnum q => ({ log with Overhead := q }, none)
    | _ => (log, some numErr)
  else (log, none)

/-- Model of `json.Unmarshal(line, &log)` on `var log traefikJSONLog`:
returns the (possibly partially) filled record and the first error.  A
syntax error leaves the record at its zero value. -/
def unmarshalLog (s : String) : traefikJSONLog × Option String :=
  match parseJ (2 * s.length + 16) .jvalue s.data with
  | none => (zeroLog, some "unexpected end of JSON input")
  | some (v, rest) =>
    if !(skipWs rest).isEmpty then
      (zeroLog, some "invalid character after top-level value")
    else
      match v with
      | .jobj mems =>
        mems.foldl (fun acc kv =>
          let r := applyField acc.1 kv
          (r.1, acc.2 <|> r.2)) (zeroLog, none)
      | _ => (zeroLog,
          some "json: cannot unmarshal value into Go value of type main.traefikJSONLog")

/-- `parseJSON` (main.go lines 237-269): `json.Valid` is computed and only
logged; the returned error is `json.Unmarshal`'s; the nanosecond→millisecond
division by 1000000 is applied to the returned record unconditionally. -/
def parseJSON (line : String) : traefikJSONLog × Option String :=
  let jsonValidFlag := jsonValidate line
  let u := unmarshalLog line
  let logv := { u.1 with
    Duration := u.1.Duration / 1000000,
    Overhead := u.1.Overhead / 1000000 }
  let _ := jsonValidFlag
  (logv, u.2)

/-! ## The pipeline loop body (main.go lines 149-196) -/

/-- The keep/drop decision of main.go lines 169-184, as a pure function of
the router name and the normalized path.  `some true` = drop (the ignored
counter is incremented), `some false` = keep, `none` = a `checkMatches`
panic on an uncompilable pattern.  The three `checkMatches` calls
short-circuit exactly as the Go `||` does and are reached only when the path
is not whitelisted. -/
def dropDecision (strict : Bool) (cfg : traefikOfficerConfig)
    (routerName normPath : String) : Option Bool :=
  let isWhitelisted := checkWhiteList normPath cfg.WhitelistPaths
  if !isWhitelisted && strict then some true
  else if !isWhitelisted then
    match checkMatches routerName cfg.IgnoredNamespaces with
    | none => none
    | some true => some true
    | some false =>
      match checkMatches routerName cfg.IgnoredRouters with
      | none => none
      | some true => some true
      | some false => checkMatches normPath cfg.IgnoredPathsRegex
  else some false

/-- The Classifier as a pure function: normalized path together with the
keep/drop decision (main.go lines 158-184). -/
def classify (cfg : traefikOfficerConfig) (fl : Flags) (d : traefikJSONLog) :
    String × Option Bool :=
  let np := normalizePath fl.includeQueryArgs cfg.MergePathsWithExtensions d.RequestPath
  (np, dropDecision fl.strictWhitelist cfg d.RouterName np)

/-- Metric/aggregation stage of the loop body (main.go lines 156-196), run on
the record `d` produced for `line`.  Mirrors the source order: increment
`lines_processed`, normalize, whitelist check, strict drop, ignore-rule drop,
threshold pass-through, latency observation, JSON-only overhead observation.
`none` models the `checkMatches` nil-regex panic. -/
def aggregate (cfg : traefikOfficerConfig) (fl : Flags) (line : String)
    (d : traefikJSONLog) (st : MetricState) : Option MetricState :=
  let st1 := { st with linesProcessed := st.linesProcessed + 1 }
  let requestPath := normalizePath fl.includeQueryArgs cfg.MergePathsWithExtensions
    d.RequestPath
  let isWhitelisted := checkWhiteList requestPath cfg.WhitelistPaths
  match dropDecision fl.strictWhitelist cfg d.RouterName requestPath with
  | none => none
  | some true => some { st1 with linesIgnored := st1.linesIgnored + 1 }
  | some false =>
    let st2 := if d.Duration > fl.passLogAboveThreshold ∧ isWhitelisted then
        { st1 with passthroughLines := line :: st1.passthroughLines }
      else st1
    let st3 := { st2 with
      latencyObs := (requestPath, d.RequestMethod, d.Duration) :: st2.latencyObs }
    some (if fl.jsonLogs then { st3 with overheadObs := d.Overhead :: st3.overheadObs }
      else st3)

/-- One iteration of the tail loop (main.go lines 149-196), rotation aside
(rotation does not touch `MetricState`).  A line is skipped if and only if
the parser returned an error whose message is exactly "ParseError"
(main.go line 150). -/
def processLine (cfg : traefikOfficerConfig) (fl : Flags) (st : MetricState)
    (line : String) : Option MetricState :=
  let parsed := if fl.jsonLogs then parseJSON line else parseLine line
  match parsed.2 with
  | some e => if e = "ParseError" then some st else aggregate cfg fl line parsed.1 st
  | none => aggregate cfg fl line parsed.1 st

/-- Process a list of lines in order. -/
def runPipeline (cfg : traefikOfficerConfig) (fl : Flags) (st : MetricState) :
    List String → Option MetricState
  | [] => some st
  | line :: rest =>
    match processLine cfg fl st line with
    | none => none
    | some st' => runPipeline cfg fl st' rest

/-! ## Rotation coordinator (main.go lines 356-414) -/

/-- Environment injected into a rotation cycle: what the OS calls return. -/
structure RotationEnv where
  /-- `ps.Processes()`: `none` models its failure; entries are
  (executable name, pid). -/
  processList : Option (List (String × Int))
  /-- whether `os.FindProcess` errors for the found pid. -/
  findProcessFails : Bool
  /-- whether `os.Remove` succeeds (permissions etc.), given the file exists. -/
  removePermitted : Bool
  /-- whether `os.Create` succeeds when invoked. -/
  createPermitted : Bool
deriving DecidableEq, Repr

/-- The world a rotation cycle acts on: the current access-log file and the
signals delivered so far (newest first). -/
structure RotationWorld where
  fileExists : Bool
  signals : List Int := []
deriving DecidableEq, Repr

/-- `deleteFile` (main.go lines 407-414): `os.Remove` fails when the file is
missing or removal is not permitted; the failure is logged and swallowed. -/
def deleteFile (env : RotationEnv) (w : RotationWorld) : RotationWorld :=
  if w.fileExists ∧ env.removePermitted then { w with fileExists := false } else w

/-- `createFile` (main.go lines 393-405): create only when `os.Stat` reports
the file missing; a creation error is swallowed. -/
def createFile (env : RotationEnv) (w : RotationWorld) : RotationWorld :=
  if w.fileExists then w
  else if env.createPermitted then { w with fileExists := true } else w

/-- The last pid whose executable is "traefik", or -1 (main.go lines 363-370:
the loop keeps overwriting `traefikPid`). -/
def findTraefikPid (processList : List (String × Int)) : Int :=
  processList.foldl (fun acc p => if p.1 = "traefik" then p.2 else acc) (-1)

/-- `logRotate` (main.go lines 356-391).  Note the source never looks at the
result of `deleteFile`: after a failed deletion it still calls `createFile`
(a no-op, since the file still exists) and still signals the writer. -/
def logRotate (env : RotationEnv) (w : RotationWorld) : RotationWorld :=
  match env.processList with
  | none => w
  | some processList =>
    let traefikPid := findTraefikPid processList
    if traefikPid = -1 then w
    else if env.findProcessFails then w
    else
      let w1 := deleteFile env w
      let w2 := createFile env w1
      { w2 with signals := traefikPid :: w2.signals }

/-! ## Helper lemmas -/

theorem containsSub_nil (l : List Char) : containsSub [] l = true := by
  cases l <;> simp [containsSub, List.isPrefixOf]

theorem goContains_empty (s : String) : goContains s "" = true := by
  unfold goContains
  have hd : ("" : String).data = [] := rfl
  rw [hd]
  exact containsSub_nil s.data

theorem checkWhiteList_of_empty_mem (path : String) (wl : List String)
    (h : "" ∈ wl) : checkWhiteList path wl = true := by
  induction wl with
  | nil => cases h
  | cons m rest ih =>
    rcases List.mem_cons.mp h with h1 | h2
    · rw [← h1]
      simp [checkWhiteList, goContains_empty]
    · by_cases hg : goContains path m = true <;> simp [checkWhiteList, hg, ih h2]

/-! ## C7: path normalization -/

/-- C7: with query arguments excluded, the normalized path is the input
truncated at the first `?` and then at the first `&`, collapsed to a
`MergePathsWithExtensions` prefix when the truncated path starts with one;
in particular `/api/v1/users/123?x=1` with merge list `["/api/v1/users"]`
normalizes to `/api/v1/users`. -/
theorem claim_C7 :
    (∀ (ml : List String) (p : String),
        normalizePath false ml p = mergePaths (specTruncate p) ml) ∧
    normalizePath false ["/api/v1/users"] "/api/v1/users/123?x=1" = "/api/v1/users" := by
  constructor
  · intro ml p
    unfold normalizePath
    rw [if_pos rfl, trimQueryArgs_eq_specTruncate]
  · decide

/-! ## C10: whitelisting is substring containment -/

/-- C10: if `WhitelistPaths` contains the empty string every path is
whitelisted (`strings.Contains(s, "")` is true), so even in strict mode the
decision is always keep; if `WhitelistPaths` is empty no path is
whitelisted. -/
theorem claim_C10 :
    (∀ (path : String) (wl : List String), "" ∈ wl → checkWhiteList path wl = true) ∧
    (∀ path : String, checkWhiteList path [] = false) ∧
    (∀ (strict : Bool) (cfg : traefikOfficerConfig) (router path : String),
      "" ∈ cfg.WhitelistPaths → dropDecision strict cfg router path = some false) := by
  refine ⟨fun path wl h => checkWhiteList_of_empty_mem path wl h,
          fun _ => rfl,
          fun strict cfg router path h => ?_⟩
  simp [dropDecision, checkWhiteList_of_empty_mem _ _ h]

/-- Witness for C10 at concrete inputs. -/
theorem claim_C10_witness :
    checkWhiteList "/x" [""] = true ∧ checkWhiteList "/x" [] = false ∧
    dropDecision true ⟨["("], [], [], [], [""]⟩ "r" "/x" = some false :=
  ⟨claim_C10.1 "/x" [""] (by simp),
   claim_C10.2.1 "/x",
   claim_C10.2.2 true ⟨["("], [], [], [], [""]⟩ "r" "/x" (by simp)⟩

/-! ## C4: JSON nanosecond→millisecond conversion is exact -/

/-- C4: whenever `json.Unmarshal` decodes the line without error into a
record with Duration `d` and Overhead `o` (nanoseconds), the record
`parseJSON` returns carries exactly `d / 1000000` and `o / 1000000`
(division in ℚ: exact). -/
theorem claim_C4 (line : String) (r : traefikJSONLog)
    (h : unmarshalLog line = (r, none)) :
    (parseJSON line).1.Duration = r.Duration / 1000000 ∧
    (parseJSON line).1.Overhead = r.Overhead / 1000000 ∧
    (parseJSON line).2 = none := by
  simp [parseJSON, h]

set_option maxRecDepth 2000 in
/-- Witness for C4 on a concrete JSON line. -/
theorem claim_C4_witness :
    (parseJSON "\x7b\"Duration\":3,\"Overhead\":7\x7d").1.Duration
        = (3 : ℚ) / 1000000 ∧
    (parseJSON "\x7b\"Duration\":3,\"Overhead\":7\x7d").1.Overhead
        = (7 : ℚ) / 1000000 ∧
    (parseJSON "\x7b\"Duration\":3,\"Overhead\":7\x7d").2 = none :=
  claim_C4 "\x7b\"Duration\":3,\"Overhead\":7\x7d"
    { Duration := 3, Overhead := 7 }
    (by with_unfolding_all decide)

/-! ## C1: text-grammar parse failures are NOT skipped (code bug) -/

/-- C1 fails on the code: on a line that does not match the 14-group
grammar, `parseLine` returns the error message "Access Log Line Invalid",
not "ParseError"; the main loop skips only on the exact message
"ParseError" (line 150), so the line is NOT skipped: `lines_processed` IS
incremented and the zero-valued record is recorded as a latency observation
`("", "", 0)`. -/
theorem claim_C1_bug :
    parseLine "" = (zeroLog, some "Access Log Line Invalid") ∧
    processLine ⟨[], [], [], [], []⟩ {} {} "" =
      some { linesProcessed := 1, latencyObs := [("", "", 0)] } :=
  ⟨by decide, by with_unfolding_all decide⟩

/-! ## C2: JSON parse failures are NOT skipped (code bug) -/

/-- C2 fails on the code: on malformed JSON, `parseJSON` returns
`json.Unmarshal`'s error (the locally shadowed "JSON Log line invalid"
error is only logged), whose message is never "ParseError"; so the line is
NOT skipped: `lines_processed` IS incremented and the zero record is
observed (latency 0 and, in JSON mode, overhead 0). -/
theorem claim_C2_bug :
    parseJSON "\x7b" = (zeroLog, some "unexpected end of JSON input") ∧
    processLine ⟨[], [], [], [], []⟩ { jsonLogs := true } {} "\x7b" =
      some { linesProcessed := 1, latencyObs := [("", "", 0)], overheadObs := [0] } :=
  ⟨by with_unfolding_all decide, by with_unfolding_all decide⟩

/-! ## C3: an unparsable ignore pattern crashes classification (code bug) -/

/-- C3 fails on the code: `checkMatches` logs the `regexp.Compile` error but
then calls `reg.MatchString` on the nil `*Regexp`, a nil-pointer
dereference panic (modelled `none`): classification does NOT complete, the
invalid pattern does not behave as a never-matching rule. -/
theorem claim_C3_bug :
    checkMatches "/any" ["("] = none ∧
    aggregate ⟨["("], [], [], [], []⟩ {} "raw" { RequestPath := "/any" } {} = none :=
  ⟨by decide, by with_unfolding_all decide⟩

/-! ## C8: a failed deletion does not abort the rotation cycle -/

/-- Counterexample to C8 as stated: writer found at pid 7, file exists but
deletion fails (`removePermitted = false`); the claim says the cycle is
aborted without signaling the writer, but `logRotate` still signals pid 7
(the file is left in place, `createFile` being a no-op on an existing
file). -/
theorem claim_C8_counterexample :
    logRotate ⟨some [("traefik", 7)], false, false, true⟩ ⟨true, []⟩
      = ⟨true, [7]⟩ := by decide

/-- C8 amended: when deletion fails, the file is neither deleted nor
recreated (`createFile` is a no-op because the file still exists), but the
cycle is NOT aborted: the writer is still signaled, and `logRotate` returns
normally so the pipeline continues streaming. -/
theorem claim_C8_amended (env : RotationEnv) (w : RotationWorld)
    (pl : List (String × Int))
    (hpl : env.processList = some pl)
    (hpid : findTraefikPid pl ≠ -1)
    (hfind : env.findProcessFails = false)
    (hfile : w.fileExists = true)
    (hrm : env.removePermitted = false) :
    logRotate env w = { w with signals := findTraefikPid pl :: w.signals } := by
  unfold logRotate
  rw [hpl]
  simp [hpid, hfind, deleteFile, createFile, hfile, hrm]

/-! ## C9: the Classifier is idempotent -/

theorem goHasPre_self (s : String) : goHasPre s s = true :=
  List.isPrefixOf_iff_prefix.mpr (List.prefix_refl s.data)

theorem mergePaths_pre (q : String) (ml : List String) :
    (mergePaths q ml).data <+: q.data := by
  induction ml with
  | nil => exact List.prefix_refl q.data
  | cons m rest ih =>
    by_cases h : goHasPre q m = true
    · simpa [mergePaths, h] using List.isPrefixOf_iff_prefix.mp h
    · simpa [mergePaths, h] using ih

theorem mergePaths_idem (q : String) (ml : List String) :
    mergePaths (mergePaths q ml) ml = mergePaths q ml := by
  induction ml with
  | nil => rfl
  | cons m rest ih =>
    by_cases h : goHasPre q m = true
    · simp [mergePaths, h, goHasPre_self]
    · have hm : ¬ goHasPre (mergePaths q rest) m = true := by
        intro hc
        exact h (List.isPrefixOf_iff_prefix.mpr
          ((List.isPrefixOf_iff_prefix.mp hc).trans (mergePaths_pre q rest)))
      simp only [mergePaths, if_neg h, if_neg hm]
      exact ih

theorem specTruncate_of_clean (r : String)
    (h : ∀ a ∈ r.data, a ≠ '?' ∧ a ≠ '&') : specTruncate r = r := by
  unfold specTruncate
  rw [show List.takeWhile (fun c => decide (c ≠ '?')) r.data = r.data from
      List.takeWhile_eq_self_iff.mpr (fun a ha => by simpa using (h a ha).1),
    show List.takeWhile (fun c => decide (c ≠ '&')) r.data = r.data from
      List.takeWhile_eq_self_iff.mpr (fun a ha => by simpa using (h a ha).2)]

theorem specTruncate_chars (p : String) :
    ∀ a ∈ (specTruncate p).data, a ≠ '?' ∧ a ≠ '&' := by
  intro a ha
  have ha' : a ∈ (p.data.takeWhile (fun c => decide (c ≠ '?'))).takeWhile
      (fun c => decide (c ≠ '&')) := ha
  have h2 : a ≠ '&' := by simpa using List.mem_takeWhile_imp ha'
  have h1 : a ≠ '?' := by
    have hmem := (List.takeWhile_prefix (fun c => decide (c ≠ '&'))).subset ha'
    simpa using List.mem_takeWhile_imp hmem
  exact ⟨h1, h2⟩

theorem normalizePath_idem (inc : Bool) (ml : List String) (p : String) :
    normalizePath inc ml (normalizePath inc ml p) = normalizePath inc ml p := by
  cases inc with
  | true => simp [normalizePath]
  | false =>
    show mergePaths (trimQueryArgs (mergePaths (trimQueryArgs p) ml)) ml =
      mergePaths (trimQueryArgs p) ml
    rw [trimQueryArgs_eq_specTruncate, trimQueryArgs_eq_specTruncate]
    have hclean : ∀ a ∈ (mergePaths (specTruncate p) ml).data, a ≠ '?' ∧ a ≠ '&' :=
      fun a ha => specTruncate_chars p a ((mergePaths_pre (specTruncate p) ml).subset ha)
    rw [specTruncate_of_clean _ hclean, mergePaths_idem]

/-- C9: the Classifier is idempotent: re-classifying a record whose path has
been replaced by its normalized path yields the same normalized path and the
same keep/drop decision (the rule set and flags being fixed). -/
theorem claim_C9 (cfg : traefikOfficerConfig) (fl : Flags) (d : traefikJSONLog) :
    classify cfg fl { d with RequestPath := (classify cfg fl d).1 } =
      classify cfg fl d := by
  simp [classify, normalizePath_idem]

/-! ## C5: counter invariant over a run of parseable lines -/

/-- The record the active parser produces for a line (main.go line 149). -/
def recordOf (fl : Flags) (line : String) : traefikJSONLog :=
  (if fl.jsonLogs then parseJSON line else parseLine line).1

/-- Whether the Classifier drops the record of `line`. -/
def lineDropped (cfg : traefikOfficerConfig) (fl : Flags) (line : String) : Bool :=
  decide (dropDecision fl.strictWhitelist cfg (recordOf fl line).RouterName
    (normalizePath fl.includeQueryArgs cfg.MergePathsWithExtensions
      (recordOf fl line).RequestPath) = some true)

/-- Number of lines in the run the Classifier drops. -/
def droppedCount (cfg : traefikOfficerConfig) (fl : Flags) (lines : List String) : Nat :=
  lines.countP (lineDropped cfg fl)

/-- All configured ignore patterns compile (rules out the nil-regex panic
of C3). -/
def rulesCompile (cfg : traefikOfficerConfig) : Prop :=
  (∀ e ∈ cfg.IgnoredNamespaces, (compileRegex e).isSome = true) ∧
  (∀ e ∈ cfg.IgnoredRouters, (compileRegex e).isSome = true) ∧
  (∀ e ∈ cfg.IgnoredPathsRegex, (compileRegex e).isSome = true)

instance (cfg : traefikOfficerConfig) : Decidable (rulesCompile cfg) := by
  unfold rulesCompile
  infer_instance

theorem checkMatches_isSome (s : String) (exprs : List String)
    (h : ∀ e ∈ exprs, (compileRegex e).isSome = true) :
    (checkMatches s exprs).isSome = true := by
  induction exprs with
  | nil => rfl
  | cons e rest ih =>
    obtain ⟨r, hr⟩ := Option.isSome_iff_exists.mp (h e (List.mem_cons_self e rest))
    have ih' := ih (fun e' he' => h e' (List.mem_cons_of_mem _ he'))
    by_cases hm : matchString r s = true <;> simp [checkMatches, hr, hm, ih']

theorem dropDecision_isSome (strict : Bool) (cfg : traefikOfficerConfig)
    (router np : String) (h : rulesCompile cfg) :
    (dropDecision strict cfg router np).isSome = true := by
  obtain ⟨h1, h2, h3⟩ := h
  unfold dropDecision
  by_cases hwl : checkWhiteList np cfg.WhitelistPaths = true
  · simp [hwl]
  · obtain ⟨b1, hb1⟩ := Option.isSome_iff_exists.mp (checkMatches_isSome router _ h1)
    obtain ⟨b2, hb2⟩ := Option.isSome_iff_exists.mp (checkMatches_isSome router _ h2)
    obtain ⟨b3, hb3⟩ := Option.isSome_iff_exists.mp (checkMatches_isSome np _ h3)
    cases strict <;> cases b1 <;> cases b2 <;> cases b3 <;>
      simp [hwl, hb1, hb2, hb3]

/-- One `aggregate` call under compiling rules: `lines_processed` always
gains 1; a dropped record adds 1 to `lines_ignored` and no observation, a
kept one adds an observation and leaves `lines_ignored` alone. -/
theorem aggregate_step (cfg : traefikOfficerConfig) (fl : Flags) (line : String)
    (d : traefikJSONLog) (st : MetricState) (h : rulesCompile cfg) :
    ∃ st', aggregate cfg fl line d st = some st' ∧
      st'.linesProcessed = st.linesProcessed + 1 ∧
      ((dropDecision fl.strictWhitelist cfg d.RouterName
          (normalizePath fl.includeQueryArgs cfg.MergePathsWithExtensions d.RequestPath)
          = some true ∧
        st'.linesIgnored = st.linesIgnored + 1 ∧
        st'.latencyObs.length = st.latencyObs.length) ∨
       (dropDecision fl.strictWhitelist cfg d.RouterName
          (normalizePath fl.includeQueryArgs cfg.MergePathsWithExtensions d.RequestPath)
          = some false ∧
        st'.linesIgnored = st.linesIgnored ∧
        st'.latencyObs.length = st.latencyObs.length + 1)) := by
  obtain ⟨b, hb⟩ := Option.isSome_iff_exists.mp
    (dropDecision_isSome fl.strictWhitelist cfg d.RouterName
      (normalizePath fl.includeQueryArgs cfg.MergePathsWithExtensions d.RequestPath) h)
  cases b with
  | true =>
    refine ⟨{ st with
                linesProcessed := st.linesProcessed + 1,
                linesIgnored := st.linesIgnored + 1 },
        ?_, by simp, Or.inl ⟨hb, by simp, by simp⟩⟩
    simp [aggregate, hb]
  | false =>
    by_cases hj : fl.jsonLogs = true <;>
      by_cases hp : d.Duration > fl.passLogAboveThreshold ∧
        checkWhiteList (normalizePath fl.includeQueryArgs cfg.MergePathsWithExtensions
          d.RequestPath) cfg.WhitelistPaths = true
    · refine ⟨{ st with
                  linesProcessed := st.linesProcessed + 1,
                  passthroughLines := line :: st.passthroughLines,
                  latencyObs := (normalizePath fl.includeQueryArgs
                      cfg.MergePathsWithExtensions d.RequestPath,
                    d.RequestMethod, d.Duration) :: st.latencyObs,
                  overheadObs := d.Overhead :: st.overheadObs },
          ?_, by simp, Or.inr ⟨hb, by simp, by simp⟩⟩
      simp [aggregate, hb, hj, hp]
    · refine ⟨{ st with
                  linesProcessed := st.linesProcessed + 1,
                  latencyObs := (normalizePath fl.includeQueryArgs
                      cfg.MergePathsWithExtensions d.RequestPath,
                    d.RequestMethod, d.Duration) :: st.latencyObs,
                  overheadObs := d.Overhead :: st.overheadObs },
          ?_, by simp, Or.inr ⟨hb, by simp, by simp⟩⟩
      simp [aggregate, hb, hj, hp]
    · refine ⟨{ st with
                  linesProcessed := st.linesProcessed + 1,
                  passthroughLines := line :: st.passthroughLines,
                  latencyObs := (normalizePath fl.includeQueryArgs
                      cfg.MergePathsWithExtensions d.RequestPath,
                    d.RequestMethod, d.Duration) :: st.latencyObs },
          ?_, by simp, Or.inr ⟨hb, by simp, by simp⟩⟩
      simp [aggregate, hb, hj, hp]
    · refine ⟨{ st with
                  linesProcessed := st.linesProcessed + 1,
                  latencyObs := (normalizePath fl.includeQueryArgs
                      cfg.MergePathsWithExtensions d.RequestPath,
                    d.RequestMethod, d.Duration) :: st.latencyObs },
          ?_, by simp, Or.inr ⟨hb, by simp, by simp⟩⟩
      simp [aggregate, hb, hj, hp]

/-- C5: over a run of parseable lines, `lines_processed` grows by the number
of lines (dropped or not), `lines_ignored` by the number of dropped lines,
and exactly (lines − dropped) latency observations are added. -/
theorem claim_C5 (cfg : traefikOfficerConfig) (fl : Flags) (lines : List String)
    (st : MetricState) (hrules : rulesCompile cfg)
    (hparse : ∀ line ∈ lines,
      (if fl.jsonLogs then parseJSON line else parseLine line).2 = none) :
    ∃ st', runPipeline cfg fl st lines = some st' ∧
      st'.linesProcessed = st.linesProcessed + lines.length ∧
      st'.linesIgnored = st.linesIgnored + droppedCount cfg fl lines ∧
      st'.latencyObs.length =
        st.latencyObs.length + (lines.length - droppedCount cfg fl lines) := by
  induction lines generalizing st with
  | nil => exact ⟨st, rfl, by simp, by simp [droppedCount], by simp [droppedCount]⟩
  | cons l rest ih =>
    have hp := hparse l (List.mem_cons_self l rest)
    obtain ⟨st1, ha, hproc, hcase⟩ :=
      aggregate_step cfg fl l (recordOf fl l) st hrules
    have hpl : processLine cfg fl st l = some st1 := by
      simp only [processLine]
      rw [hp]
      exact ha
    have hrun : runPipeline cfg fl st (l :: rest) = runPipeline cfg fl st1 rest := by
      simp only [runPipeline]
      rw [hpl]
    obtain ⟨st', hrun', h1, h2, h3⟩ :=
      ih st1 (fun l' hl' => hparse l' (List.mem_cons_of_mem _ hl'))
    have hdcr : droppedCount cfg fl rest ≤ rest.length := List.countP_le_length _
    refine ⟨st', by rw [hrun, hrun'], ?_, ?_, ?_⟩
    all_goals
      rcases hcase with ⟨hdec, hig, hobs⟩ | ⟨hdec, hig, hobs⟩
    · have hdc : droppedCount cfg fl (l :: rest) = droppedCount cfg fl rest + 1 := by
        simp [droppedCount, List.countP_cons, lineDropped, hdec]
      simp only [List.length_cons]
      omega
    · have hdc : droppedCount cfg fl (l :: rest) = droppedCount cfg fl rest := by
        simp [droppedCount, List.countP_cons, lineDropped, hdec]
      simp only [List.length_cons]
      omega
    · have hdc : droppedCount cfg fl (l :: rest) = droppedCount cfg fl rest + 1 := by
        simp [droppedCount, List.countP_cons, lineDropped, hdec]
      simp only [List.length_cons, hdc]
      omega
    · have hdc : droppedCount cfg fl (l :: rest) = droppedCount cfg fl rest := by
        simp [droppedCount, List.countP_cons, lineDropped, hdec]
      simp only [List.length_cons, hdc]
      omega
    · have hdc : droppedCount cfg fl (l :: rest) = droppedCount cfg fl rest + 1 := by
        simp [droppedCount, List.countP_cons, lineDropped, hdec]
      simp only [List.length_cons, hdc]
      omega
    · have hdc : droppedCount cfg fl (l :: rest) = droppedCount cfg fl rest := by
        simp [droppedCount, List.countP_cons, lineDropped, hdec]
      simp only [List.length_cons, hdc]
      omega

set_option maxRecDepth 4000 in
/-- Witness for C5: a JSON-mode run of two parseable lines, the first
dropped by `IgnoredPathsRegex = ["drop"]`: processed 2, ignored 1, one
latency observation. -/
theorem claim_C5_witness :
    ∃ st', runPipeline ⟨[], [], ["drop"], [], []⟩ { jsonLogs := true } {}
        ["\x7b\"RequestPath\":\"/drop\"\x7d", "\x7b\"RequestPath\":\"/keep\"\x7d"] = some st' ∧
      st'.linesProcessed = 2 ∧ st'.linesIgnored = 1 ∧ st'.latencyObs.length = 1 := by
  have hdc : droppedCount ⟨[], [], ["drop"], [], []⟩ { jsonLogs := true }
      ["\x7b\"RequestPath\":\"/drop\"\x7d", "\x7b\"RequestPath\":\"/keep\"\x7d"] = 1 := by
    with_unfolding_all decide
  obtain ⟨st', h1, h2, h3, h4⟩ :=
    claim_C5 ⟨[], [], ["drop"], [], []⟩ { jsonLogs := true }
      ["\x7b\"RequestPath\":\"/drop\"\x7d", "\x7b\"RequestPath\":\"/keep\"\x7d"] {}
      (by decide) (by with_unfolding_all decide)
  rw [hdc] at h3 h4
  exact ⟨st', h1, by simpa using h2, by simpa using h3, by simpa using h4⟩

/-! ## C6: strict-whitelist mode -/

/-- C6: with strict-whitelist mode on, a record whose normalized path is not
whitelisted is dropped (ignored counter incremented) with no further rule
checks — in particular no `checkMatches` call, so arbitrary (even
uncompilable) ignore patterns are irrelevant; a whitelisted record is kept
(latency observed, ignored counter untouched) regardless of the contents of
`IgnoredNamespaces`, `IgnoredRouters` and `IgnoredPathsRegex`. -/
theorem claim_C6 (cfg : traefikOfficerConfig) (fl : Flags) (line : String)
    (d : traefikJSONLog) (st : MetricState)
    (hstrict : fl.strictWhitelist = true) :
    (checkWhiteList
        (normalizePath fl.includeQueryArgs cfg.MergePathsWithExtensions d.RequestPath)
        cfg.WhitelistPaths = false →
      aggregate cfg fl line d st =
        some { st with linesProcessed := st.linesProcessed + 1,
                       linesIgnored := st.linesIgnored + 1 }) ∧
    (checkWhiteList
        (normalizePath fl.includeQueryArgs cfg.MergePathsWithExtensions d.RequestPath)
        cfg.WhitelistPaths = true →
      ∃ st', aggregate cfg fl line d st = some st' ∧
        st'.linesProcessed = st.linesProcessed + 1 ∧
        st'.linesIgnored = st.linesIgnored ∧
        st'.latencyObs =
          (normalizePath fl.includeQueryArgs cfg.MergePathsWithExtensions d.RequestPath,
            d.RequestMethod, d.Duration) :: st.latencyObs) := by
  constructor
  · intro hwl
    simp [aggregate, dropDecision, hwl, hstrict]
  · intro hwl
    simp only [aggregate, dropDecision, hwl, hstrict]
    refine ⟨_, rfl, ?_⟩
    by_cases hj : fl.jsonLogs = true <;>
      by_cases hp : d.Duration > fl.passLogAboveThreshold <;>
        simp [hj, hp]

/-- Witness for C6: strict mode on; `/other` is dropped even though every
ignore list holds only the uncompilable pattern `"("`; `/health` is kept
even though `IgnoredPathsRegex` matches it. -/
theorem claim_C6_witness :
    (aggregate ⟨["("], ["("], ["("], [], ["/health"]⟩ { strictWhitelist := true }
        "raw1" { RequestPath := "/other" } {} =
      some { linesProcessed := 1, linesIgnored := 1 }) ∧
    (∃ st', aggregate ⟨[], [], ["health"], [], ["/health"]⟩ { strictWhitelist := true }
        "raw2" { RequestPath := "/health" } {} = some st' ∧
      st'.linesProcessed = 1 ∧
      st'.linesIgnored = 0 ∧
      st'.latencyObs = [("/health", "", 0)]) := by
  constructor
  · exact (claim_C6 ⟨["("], ["("], ["("], [], ["/health"]⟩ { strictWhitelist := true }
      "raw1" { RequestPath := "/other" } {} rfl).1 (by decide)
  · have h := (claim_C6 ⟨[], [], ["health"], [], ["/health"]⟩ { strictWhitelist := true }
      "raw2" { RequestPath := "/health" } {} rfl).2 (by decide)
    obtain ⟨st', h1, h2, h3, h4⟩ := h
    exact ⟨st', h1, h2, h3, by rw [h4]; rfl⟩

/-- Witness for the amended C8 at concrete inputs. -/
theorem claim_C8_witness :
    logRotate ⟨some [("traefik", 9)], false, false, true⟩ ⟨true, []⟩
      = ⟨true, [9]⟩ :=
  claim_C8_amended ⟨some [("traefik", 9)], false, false, true⟩ ⟨true, []⟩
    [("traefik", 9)] rfl (by decide) rfl rfl rfl

end TraefikOfficer
